import Mathlib

/-!
Verification of the aggregatable-report decoding and protocol-dispatch layer
(`shared/reporttypes.go`) of the privacy-sandbox aggregation service.

Go strings and byte slices are both modelled as `List Nat` with entries below
256 (Go strings are arbitrary byte sequences).  Fallible Go functions return
`Except Err` values; the Go map built by `convertReport` is modelled as the
association list of its insertions in index order (its keys are pairwise
distinct decimal strings, so the association list determines the map).
-/

namespace ReportTypes

/-- Byte sequences: Go `[]byte` and Go `string` values. -/
abbrev Bytes := List Nat

/-- Error kinds of this layer, named as in the specification:
`InvalidPayloadCount` for the `fmt.Errorf` of `Validate`/`GetProtocol`
(carrying the offending count), `DecodeError` for base64
`CorruptInputError`. -/
inductive Err where
  | InvalidPayloadCount (got : Nat)
  | DecodeError
deriving DecidableEq, Repr

/-- Go struct `AggregationServicePayload`: `Payload`, `KeyID` and
`DebugCleartextPayload` are Go strings. -/
structure AggregationServicePayload where
  payload : Bytes
  keyID : Bytes
  debugCleartextPayload : Bytes
deriving DecidableEq, Repr

/-- Go struct `AggregatableReport`. -/
structure AggregatableReport where
  sourceSite : Bytes
  attributionDestination : Bytes
  sharedInfo : Bytes
  aggregationServicePayloads : List AggregationServicePayload
  sourceDebugKey : Bytes
  triggerDebugKey : Bytes
deriving DecidableEq, Repr

/-- The constant `onepartyProtocol = "one-party"`. -/
def onepartyProtocol : String := "one-party"

/-- The constant `mpcProtocol = "mpc"`. -/
def mpcProtocol : String := "mpc"

/-- Go method `GetProtocol`: dispatch on the payload count. -/
def GetProtocol (r : AggregatableReport) : Except Err String :=
  match r.aggregationServicePayloads.length with
  | 1 => .ok onepartyProtocol
  | 2 => .ok mpcProtocol
  | n => .error (.InvalidPayloadCount n)

/-- Go method `Validate`: the payload count must be 1 or 2. -/
def Validate (r : AggregatableReport) : Except Err Unit :=
  if r.aggregationServicePayloads.length ≠ 1 ∧ r.aggregationServicePayloads.length ≠ 2 then
    .error (.InvalidPayloadCount r.aggregationServicePayloads.length)
  else
    .ok ()

/-- Go method `IsDebugReport`: reads `AggregationServicePayloads[0]` with no
bounds check (a Go panic on the empty slice is modelled as `none`). -/
def IsDebugReport (r : AggregatableReport) : Option Bool :=
  match r.aggregationServicePayloads with
  | [] => none
  | p :: _ => some (decide (p.debugCleartextPayload ≠ []))

/-! ### Base64 (Go `encoding/base64`, `StdEncoding`)

The standard alphabet with mandatory padding.  `base64Encode` maps bytes to
the byte sequence of the encoded string; `base64Decode` is Go's strict
decoder: the input length must be a multiple of four, padding may appear
only at the end, invalid characters are rejected (Go does not check that
unused trailing bits are zero, and decodes the empty string to zero
bytes). -/

/-- The standard base64 alphabet: the character (byte) for a 6-bit value. -/
def b64Char (n : Nat) : Nat :=
  if n < 26 then 65 + n
  else if n < 52 then 97 + (n - 26)
  else if n < 62 then 48 + (n - 52)
  else if n = 62 then 43
  else 47

/-- Inverse alphabet lookup: the 6-bit value of a character, if valid. -/
def b64Val (c : Nat) : Option Nat :=
  if 65 ≤ c ∧ c ≤ 90 then some (c - 65)
  else if 97 ≤ c ∧ c ≤ 122 then some (c - 97 + 26)
  else if 48 ≤ c ∧ c ≤ 57 then some (c - 48 + 52)
  else if c = 43 then some 62
  else if c = 47 then some 63
  else none

/-- Go `base64.StdEncoding.EncodeToString`, 3 input bytes per 4 output
characters, with `=` (byte 61) padding. -/
def base64Encode : Bytes → Bytes
  | [] => []
  | [a] => [b64Char (a / 4), b64Char (a % 4 * 16), 61, 61]
  | [a, b] => [b64Char (a / 4), b64Char (a % 4 * 16 + b / 16), b64Char (b % 16 * 4), 61]
  | a :: b :: c :: rest =>
      b64Char (a / 4) :: b64Char (a % 4 * 16 + b / 16) :: b64Char (b % 16 * 4 + c / 64) ::
        b64Char (c % 64) :: base64Encode rest

/-- Go `base64.StdEncoding.DecodeString`: `none` models the
`CorruptInputError` return. -/
def base64Decode : Bytes → Option Bytes
  | [] => some []
  | c1 :: c2 :: c3 :: c4 :: rest =>
    match b64Val c1, b64Val c2 with
    | some a, some b =>
      if c3 = 61 then
        if c4 = 61 ∧ rest = [] then some [a * 4 + b / 16] else none
      else
        match b64Val c3 with
        | some c =>
          if c4 = 61 then
            if rest = [] then some [a * 4 + b / 16, b % 16 * 16 + c / 4] else none
          else
            match b64Val c4, base64Decode rest with
            | some d, some tail =>
                some ((a * 4 + b / 16) :: (b % 16 * 16 + c / 4) :: (c % 4 * 64 + d) :: tail)
            | _, _ => none
        | none => none
    | _, _ => none
  | _ => none

theorem b64Val_b64Char_fin : ∀ n : Fin 64, b64Val (b64Char n.val) = some n.val := by
  decide

theorem b64Val_b64Char {n : Nat} (h : n < 64) : b64Val (b64Char n) = some n :=
  b64Val_b64Char_fin ⟨n, h⟩

theorem b64Char_ne_pad_fin : ∀ n : Fin 64, b64Char n.val ≠ 61 := by
  decide

theorem b64Char_ne_pad {n : Nat} (h : n < 64) : b64Char n ≠ 61 :=
  b64Char_ne_pad_fin ⟨n, h⟩

/-- Round trip of the base64 codec on well-formed byte sequences. -/
theorem base64_roundtrip :
    ∀ bs : Bytes, (∀ x ∈ bs, x < 256) → base64Decode (base64Encode bs) = some bs := by
  intro bs
  induction bs using base64Encode.induct with
  | case1 =>
    intro _
    decide
  | case2 a =>
    intro h
    have ha : a < 256 := h a (by simp)
    have h1 : a / 4 < 64 := by omega
    have h2 : a % 4 * 16 < 64 := by omega
    simp only [base64Encode, base64Decode, b64Val_b64Char h1, b64Val_b64Char h2,
      if_pos rfl, and_self, if_pos trivial, Option.some.injEq, List.cons.injEq, and_true]
    omega
  | case3 a b =>
    intro h
    have ha : a < 256 := h a (by simp)
    have hb : b < 256 := h b (by simp)
    have h1 : a / 4 < 64 := by omega
    have h2 : a % 4 * 16 + b / 16 < 64 := by omega
    have h3 : b % 16 * 4 < 64 := by omega
    simp only [base64Encode, base64Decode, b64Val_b64Char h1, b64Val_b64Char h2,
      b64Val_b64Char h3, if_neg (b64Char_ne_pad h3), if_pos rfl, if_pos trivial,
      Option.some.injEq, List.cons.injEq, and_true]
    omega
  | case4 a b c rest ih =>
    intro h
    have ha : a < 256 := h a (by simp)
    have hb : b < 256 := h b (by simp)
    have hc : c < 256 := h c (by simp)
    have hrest : ∀ x ∈ rest, x < 256 := by
      intro x hx
      exact h x (by simp [hx])
    have h1 : a / 4 < 64 := by omega
    have h2 : a % 4 * 16 + b / 16 < 64 := by omega
    have h3 : b % 16 * 4 + c / 64 < 64 := by omega
    have h4 : c % 64 < 64 := by omega
    simp only [base64Encode, base64Decode, b64Val_b64Char h1, b64Val_b64Char h2,
      b64Val_b64Char h3, b64Val_b64Char h4, if_neg (b64Char_ne_pad h3),
      if_neg (b64Char_ne_pad h4), ih hrest, Option.some.injEq, List.cons.injEq, and_true]
    refine ⟨by omega, by omega, by omega⟩

/-! ### Wire record and its binary codec

Modelled from the spec: the proto schema `crypto_go_proto` (message
`AggregatablePayload` wrapping a `StandardCiphertext`) is not part of the
sources given here, only its Go callers are.  The spec describes the
outbound wire schema as "a record with three fields — ciphertext bytes,
shared-info string (verbatim), key identifier string", binary-packed and
base64-encoded.  We realise the binary packing as the protobuf wire format
the Go code's `proto.Marshal`/`proto.Unmarshal` use: length-delimited
fields 1 (the ciphertext submessage), 2 (shared info) and 3 (key id) with
base-128 varint lengths, empty string fields omitted, the submessage always
present.  The unmarshaller parses exactly this emitted grammar. -/

/-- The wire record `pb.AggregatablePayload`: `data` is the ciphertext byte
sequence of the `StandardCiphertext` submessage, `sharedInfo` and `keyId`
the two string fields. -/
structure AggregatablePayload where
  data : Bytes
  sharedInfo : Bytes
  keyId : Bytes
deriving DecidableEq, Repr

/-- A wire record is well formed when every byte of it is a byte. -/
def AggregatablePayload.WF (p : AggregatablePayload) : Prop :=
  (∀ x ∈ p.data, x < 256) ∧ (∀ x ∈ p.sharedInfo, x < 256) ∧ (∀ x ∈ p.keyId, x < 256)

def varintEncodeAux : Nat → Nat → Bytes
  | 0, _ => []
  | fuel + 1, n => if n < 128 then [n] else (n % 128 + 128) :: varintEncodeAux fuel (n / 128)

def varintEncode (n : Nat) : Bytes := varintEncodeAux (n + 1) n

theorem varintEncodeAux_irrel :
    ∀ f1 f2 n : Nat, n < f1 → n < f2 → varintEncodeAux f1 n = varintEncodeAux f2 n := by
  intro f1
  induction f1 with
  | zero => omega
  | succ g ih =>
    intro f2 n h1 h2
    cases f2 with
    | zero => omega
    | succ m =>
      simp only [varintEncodeAux]
      by_cases hn : n < 128
      · simp [hn]
      · simp only [if_neg hn]
        have hlt : n / 128 < n := Nat.div_lt_self (by omega) (by omega)
        rw [ih m (n / 128) (by omega) (by omega)]

theorem varintEncode_unfold (n : Nat) :
    varintEncode n = if n < 128 then [n] else (n % 128 + 128) :: varintEncode (n / 128) := by
  by_cases hn : n < 128
  · rw [varintEncode, varintEncodeAux, if_pos hn, if_pos hn]
  · rw [varintEncode, varintEncodeAux, if_neg hn, if_neg hn, varintEncode]
    have hlt : n / 128 < n := Nat.div_lt_self (by omega) (by omega)
    rw [varintEncodeAux_irrel n (n / 128 + 1) (n / 128) (by omega) (by omega)]

def varintDecode : Bytes → Option (Nat × Bytes)
  | [] => none
  | b :: rest =>
    if b < 128 then some (b, rest)
    else
      match varintDecode rest with
      | some (n, rest2) => some (n * 128 + (b - 128), rest2)
      | none => none

theorem varintDecode_encode (n : Nat) :
    ∀ rest : Bytes, varintDecode (varintEncode n ++ rest) = some (n, rest) := by
  induction n using Nat.strong_induction_on with
  | _ n ih =>
    intro rest
    rw [varintEncode_unfold]
    by_cases h : n < 128
    · rw [if_pos h]
      simp [varintDecode, h]
    · rw [if_neg h, List.cons_append, varintDecode]
      have hlt : n / 128 < n := Nat.div_lt_self (by omega) (by omega)
      simp only [if_neg (by omega : ¬ n % 128 + 128 < 128), ih (n / 128) hlt]
      simp only [Option.some.injEq, Prod.mk.injEq, and_true]
      omega

theorem varintEncode_bytes (n : Nat) : ∀ x ∈ varintEncode n, x < 256 := by
  induction n using Nat.strong_induction_on with
  | _ n ih =>
    rw [varintEncode_unfold]
    by_cases h : n < 128
    · rw [if_pos h]
      intro x hx
      simp at hx
      omega
    · rw [if_neg h]
      intro x hx
      have hlt : n / 128 < n := Nat.div_lt_self (by omega) (by omega)
      rcases List.mem_cons.mp hx with hx | hx
      · omega
      · exact ih (n / 128) hlt x hx

theorem varintEncode_length_pos (n : Nat) : 0 < (varintEncode n).length := by
  rw [varintEncode_unfold]
  split <;> simp

def pbField (tag : Nat) (content : Bytes) : Bytes :=
  tag :: (varintEncode content.length ++ content)

def marshalSC (d : Bytes) : Bytes :=
  if d = [] then [] else pbField 10 d

def protoMarshal (p : AggregatablePayload) : Bytes :=
  pbField 10 (marshalSC p.data)
    ++ (if p.sharedInfo = [] then [] else pbField 18 p.sharedInfo)
    ++ (if p.keyId = [] then [] else pbField 26 p.keyId)

def parseSC : Nat → Bytes → Bytes → Option Bytes
  | _, [], acc => some acc
  | 0, _ :: _, _ => none
  | fuel + 1, b :: rest, _ =>
    if b = 10 then
      match varintDecode rest with
      | some (len, rest2) =>
        if len ≤ rest2.length then parseSC fuel (rest2.drop len) (rest2.take len)
        else none
      | none => none
    else none

def parseAP : Nat → Bytes → AggregatablePayload → Option AggregatablePayload
  | _, [], acc => some acc
  | 0, _ :: _, _ => none
  | fuel + 1, b :: rest, acc =>
    match varintDecode rest with
    | some (len, rest2) =>
      if len ≤ rest2.length then
        if b = 10 then
          match parseSC (rest2.take len).length (rest2.take len) [] with
          | some d => parseAP fuel (rest2.drop len) { acc with data := d }
          | none => none
        else if b = 18 then
          parseAP fuel (rest2.drop len) { acc with sharedInfo := rest2.take len }
        else if b = 26 then
          parseAP fuel (rest2.drop len) { acc with keyId := rest2.take len }
        else none
      else none
    | none => none

def protoUnmarshal (bs : Bytes) : Option AggregatablePayload :=
  parseAP bs.length bs ⟨[], [], []⟩

theorem parseAP_nil (fuel : Nat) (acc : AggregatablePayload) :
    parseAP fuel [] acc = some acc := by
  cases fuel <;> rfl

theorem parseSC_nil (fuel : Nat) (acc : Bytes) : parseSC fuel [] acc = some acc := by
  cases fuel <;> rfl

theorem parseSC_marshalSC (d : Bytes) :
    parseSC (marshalSC d).length (marshalSC d) [] = some d := by
  by_cases hd : d = []
  · subst hd
    rfl
  · rw [marshalSC, if_neg hd]
    rw [pbField]
    rw [List.length_cons]
    rw [parseSC]
    rw [if_pos rfl]
    rw [varintDecode_encode]
    simp only [List.take_length, List.drop_length, le_refl, if_pos, parseSC_nil]

theorem parseAP_field10 (fuel : Nat) (d rest : Bytes) (acc : AggregatablePayload) :
    parseAP (fuel + 1) (pbField 10 (marshalSC d) ++ rest) acc
      = parseAP fuel rest { acc with data := d } := by
  rw [pbField, List.cons_append, List.append_assoc, parseAP, varintDecode_encode]
  simp only [List.take_left, List.drop_left, List.length_append, Nat.le_add_right,
    if_pos, if_pos rfl, parseSC_marshalSC]

theorem parseAP_field18 (fuel : Nat) (c rest : Bytes) (acc : AggregatablePayload) :
    parseAP (fuel + 1) (pbField 18 c ++ rest) acc
      = parseAP fuel rest { acc with sharedInfo := c } := by
  rw [pbField, List.cons_append, List.append_assoc, parseAP, varintDecode_encode]
  simp only [List.take_left, List.drop_left, List.length_append, Nat.le_add_right,
    if_pos, if_pos rfl]
  rfl

theorem parseAP_field26 (fuel : Nat) (c rest : Bytes) (acc : AggregatablePayload) :
    parseAP (fuel + 1) (pbField 26 c ++ rest) acc
      = parseAP fuel rest { acc with keyId := c } := by
  rw [pbField, List.cons_append, List.append_assoc, parseAP, varintDecode_encode]
  simp only [List.take_left, List.drop_left, List.length_append, Nat.le_add_right,
    if_pos, if_pos rfl]
  rfl

theorem parseAP_marshal_aux (p : AggregatablePayload) (k : Nat) :
    parseAP (k + 3) (protoMarshal p) ⟨[], [], []⟩ = some p := by
  obtain ⟨pd, ps, pk⟩ := p
  rw [protoMarshal]
  rw [List.append_assoc]
  rw [show k + 3 = (k + 2) + 1 from rfl]
  rw [parseAP_field10]
  by_cases hs : ps = [] <;> by_cases hk : pk = []
  · simp only [if_pos hs, if_pos hk, List.nil_append, parseAP_nil]
    rw [hs, hk]
  · simp only [if_pos hs, if_neg hk, List.nil_append]
    rw [show k + 2 = (k + 1) + 1 from rfl]
    rw [show (pbField 26 pk : Bytes) = pbField 26 pk ++ [] by simp]
    rw [parseAP_field26, parseAP_nil]
    rw [hs]
  · simp only [if_neg hs, if_pos hk, List.append_nil]
    rw [show k + 2 = (k + 1) + 1 from rfl]
    rw [show (pbField 18 ps : Bytes) = pbField 18 ps ++ [] by simp]
    rw [parseAP_field18, parseAP_nil]
    rw [hk]
  · simp only [if_neg hs, if_neg hk]
    rw [show k + 2 = (k + 1) + 1 from rfl]
    rw [parseAP_field18]
    rw [show (pbField 26 pk : Bytes) = pbField 26 pk ++ [] by simp]
    rw [parseAP_field26, parseAP_nil]

theorem protoUnmarshal_marshal (p : AggregatablePayload) :
    protoUnmarshal (protoMarshal p) = some p := by
  by_cases hall : p.data = [] ∧ p.sharedInfo = [] ∧ p.keyId = []
  · obtain ⟨h1, h2, h3⟩ := hall
    have hp : p = ⟨[], [], []⟩ := by
      cases p
      simp_all
    subst hp
    decide
  · have h3 : 3 ≤ (protoMarshal p).length := by
      rw [protoMarshal]
      simp only [List.length_append, pbField, List.length_cons]
      have v1 := varintEncode_length_pos (marshalSC p.data).length
      by_cases hd : p.data = []
      · rcases not_and_or.mp hall with h | h
        · exact absurd hd h
        rcases not_and_or.mp h with h | h
        · have hp2 : 0 < p.sharedInfo.length := List.length_pos.mpr h
          have v2 := varintEncode_length_pos p.sharedInfo.length
          rw [if_neg h]
          simp only [List.length_cons, List.length_append]
          omega
        · have hp3 : 0 < p.keyId.length := List.length_pos.mpr h
          have v3 := varintEncode_length_pos p.keyId.length
          rw [if_neg h]
          simp only [List.length_cons, List.length_append]
          omega
      · have hp1 : 0 < p.data.length := List.length_pos.mpr hd
        rw [marshalSC, if_neg hd, pbField]
        have v2 := varintEncode_length_pos p.data.length
        simp only [List.length_cons, List.length_append]
        omega
    obtain ⟨k, hk⟩ : ∃ k, (protoMarshal p).length = k + 3 := ⟨(protoMarshal p).length - 3, by omega⟩
    rw [protoUnmarshal, hk, parseAP_marshal_aux]

theorem pbField_bytes (tag : Nat) (content : Bytes) (htag : tag < 256)
    (hc : ∀ x ∈ content, x < 256) : ∀ x ∈ pbField tag content, x < 256 := by
  intro x hx
  rw [pbField] at hx
  rcases List.mem_cons.mp hx with hx | hx
  · omega
  rcases List.mem_append.mp hx with hx | hx
  · exact varintEncode_bytes content.length x hx
  · exact hc x hx

theorem marshalSC_bytes (d : Bytes) (hd : ∀ x ∈ d, x < 256) :
    ∀ x ∈ marshalSC d, x < 256 := by
  rw [marshalSC]
  split
  · simp
  · exact pbField_bytes 10 d (by omega) hd

theorem protoMarshal_bytes (p : AggregatablePayload) (h : p.WF) :
    ∀ x ∈ protoMarshal p, x < 256 := by
  obtain ⟨h1, h2, h3⟩ := h
  intro x hx
  rw [protoMarshal] at hx
  rcases List.mem_append.mp hx with hx | hx
  · rcases List.mem_append.mp hx with hx | hx
    · exact pbField_bytes 10 (marshalSC p.data) (by omega) (marshalSC_bytes p.data h1) x hx
    · rcases Classical.em (p.sharedInfo = []) with hs | hs
      · rw [if_pos hs] at hx
        simp at hx
      · rw [if_neg hs] at hx
        exact pbField_bytes 18 p.sharedInfo (by omega) h2 x hx
  · rcases Classical.em (p.keyId = []) with hk | hk
    · rw [if_pos hk] at hx
      simp at hx
    · rw [if_neg hk] at hx
      exact pbField_bytes 26 p.keyId (by omega) h3 x hx

/-- Go function `SerializeAggregatablePayload`: `proto.Marshal` followed by
base64 encoding.  `proto.Marshal` cannot fail on this message, so the Go
error return is always `nil`: the result is always `.ok`. -/
def SerializeAggregatablePayload (p : AggregatablePayload) : Except Err Bytes :=
  .ok (base64Encode (protoMarshal p))

/-- Go function `DeserializeAggregatablePayload`: base64 decoding followed
by `proto.Unmarshal`; either failure is returned as an error. -/
def DeserializeAggregatablePayload (line : Bytes) : Except Err AggregatablePayload :=
  match base64Decode line with
  | none => .error .DecodeError
  | some bsc =>
    match protoUnmarshal bsc with
    | none => .error .DecodeError
    | some p => .ok p

/-! ### Payload extraction and the transport map -/

/-- One iteration of the loop of `ExtractPayloadsFromAggregatableReport`:
select the channel according to `useCleartext`, base64-decode it, and build
the wire record carrying the report's shared-info string verbatim (the key
id is only carried on the encrypted channel). -/
def extractOne (sharedInfo : Bytes) (useCleartext : Bool)
    (p : AggregationServicePayload) : Except Err AggregatablePayload :=
  if useCleartext then
    match base64Decode p.debugCleartextPayload with
    | some data => .ok ⟨data, sharedInfo, []⟩
    | none => .error .DecodeError
  else
    match base64Decode p.payload with
    | some data => .ok ⟨data, sharedInfo, p.keyID⟩
    | none => .error .DecodeError

/-- The loop of `ExtractPayloadsFromAggregatableReport`: the first decoding
error aborts the whole extraction. -/
def extractList (sharedInfo : Bytes) (useCleartext : Bool) :
    List AggregationServicePayload → Except Err (List AggregatablePayload)
  | [] => .ok []
  | p :: rest =>
    match extractOne sharedInfo useCleartext p with
    | .error e => .error e
    | .ok record =>
      match extractList sharedInfo useCleartext rest with
      | .error e => .error e
      | .ok tail => .ok (record :: tail)

/-- Go method `ExtractPayloadsFromAggregatableReport`. -/
def ExtractPayloadsFromAggregatableReport (r : AggregatableReport)
    (useCleartext : Bool) : Except Err (List AggregatablePayload) :=
  extractList r.sharedInfo useCleartext r.aggregationServicePayloads

/-- Go `strconv.Itoa` (for the non-negative indices used here): the ASCII
decimal form of a natural number, via fuel-structural recursion. -/
def itoaAux : Nat → Nat → Bytes
  | 0, _ => []
  | fuel + 1, n => if n < 10 then [48 + n] else itoaAux fuel (n / 10) ++ [48 + n % 10]

/-- `strconv.Itoa`. -/
def itoa (n : Nat) : Bytes := itoaAux (n + 1) n

/-- The loop of `convertReport`: serialize each record and store it under
the decimal string of its index, aborting on the first serialization
error. -/
def serializeLoop : Nat → List AggregatablePayload → Except Err (List (Bytes × Bytes))
  | _, [] => .ok []
  | i, record :: rest =>
    match SerializeAggregatablePayload record with
    | .error e => .error e
    | .ok s =>
      match serializeLoop (i + 1) rest with
      | .error e => .error e
      | .ok tail => .ok ((itoa i, s) :: tail)

/-- Go method `convertReport`: extract the wire records, then serialize each
and store it under the decimal string of its index.  The Go map is modelled
as the association list of its insertions in index order. -/
def convertReport (r : AggregatableReport) (useCleartext : Bool) :
    Except Err (List (Bytes × Bytes)) :=
  match ExtractPayloadsFromAggregatableReport r useCleartext with
  | .error e => .error e
  | .ok payloads => serializeLoop 0 payloads

/-- Go method `GetSerializedEncryptedRecords`. -/
def GetSerializedEncryptedRecords (r : AggregatableReport) :
    Except Err (List (Bytes × Bytes)) :=
  convertReport r false

/-- Go method `GetSerializedCleartextRecords`. -/
def GetSerializedCleartextRecords (r : AggregatableReport) :
    Except Err (List (Bytes × Bytes)) :=
  convertReport r true

/-! ### Concrete example data (used as witnesses)

The end-to-end example of the spec: a one-payload report with payload
`"AQ=="` (bytes `[65, 81, 61, 61]`, decoding to `[1]`), key id `"k1"`
(`[107, 49]`) and shared info `"SI"` (`[83, 73]`). -/

/-- Example payload entry: `{payload: "AQ==", key_id: "k1",
debug_cleartext_payload: ""}`. -/
def exPayload : AggregationServicePayload := ⟨[65, 81, 61, 61], [107, 49], []⟩

/-- Example one-payload report with shared info `"SI"`. -/
def exReport : AggregatableReport := ⟨[], [], [83, 73], [exPayload], [], []⟩

/-- Example two-payload report. -/
def exReport2 : AggregatableReport := ⟨[], [], [83, 73], [exPayload, exPayload], [], []⟩

/-- Report with three well-formed payload entries. -/
def exReport3 : AggregatableReport :=
  ⟨[], [], [83, 73], [exPayload, exPayload, exPayload], [], []⟩

/-- Report with no payload entries. -/
def exReport0 : AggregatableReport := ⟨[], [], [83, 73], [], [], []⟩

/-- Report whose single payload entry has a malformed base64 `payload`
(`"!"`, byte 33). -/
def exReportBad : AggregatableReport := ⟨[], [], [83, 73], [⟨[33], [107, 49], []⟩], [], []⟩

/-! ### Claims -/

theorem getProtocol_default (n : Nat) (h1 : n ≠ 1) (h2 : n ≠ 2) :
    (match n with
      | 1 => Except.ok onepartyProtocol
      | 2 => Except.ok mpcProtocol
      | n => Except.error (Err.InvalidPayloadCount n))
      = Except.error (Err.InvalidPayloadCount n) := by
  match n with
  | 0 => rfl
  | 1 => omega
  | 2 => omega
  | m + 3 => rfl

/-- C1: a report with exactly one payload entry gets the one-party tag, a
report with two gets the mpc tag, and on both `Validate` succeeds; for any
other count both `GetProtocol` and `Validate` fail with
`InvalidPayloadCount`. -/
theorem getProtocol_validate_by_count (r : AggregatableReport) :
    (r.aggregationServicePayloads.length = 1 →
      GetProtocol r = .ok onepartyProtocol ∧ Validate r = .ok ()) ∧
    (r.aggregationServicePayloads.length = 2 →
      GetProtocol r = .ok mpcProtocol ∧ Validate r = .ok ()) ∧
    (r.aggregationServicePayloads.length ≠ 1 → r.aggregationServicePayloads.length ≠ 2 →
      GetProtocol r = .error (.InvalidPayloadCount r.aggregationServicePayloads.length) ∧
      Validate r = .error (.InvalidPayloadCount r.aggregationServicePayloads.length)) := by
  refine ⟨?_, ?_, ?_⟩
  · intro h
    constructor
    · unfold GetProtocol
      rw [h]
    · unfold Validate
      rw [if_neg (by omega)]
  · intro h
    constructor
    · unfold GetProtocol
      rw [h]
    · unfold Validate
      rw [if_neg (by omega)]
  · intro h1 h2
    constructor
    · unfold GetProtocol
      exact getProtocol_default r.aggregationServicePayloads.length h1 h2
    · unfold Validate
      rw [if_pos ⟨h1, h2⟩]

/-- Witness for C1: the protocol of the one-payload example report, the
two-payload one, and the empty one. -/
theorem getProtocol_validate_by_count_witness :
    (GetProtocol exReport = .ok onepartyProtocol ∧ Validate exReport = .ok ()) ∧
    (GetProtocol exReport2 = .ok mpcProtocol ∧ Validate exReport2 = .ok ()) ∧
    (GetProtocol exReport0 = .error (.InvalidPayloadCount 0) ∧
      Validate exReport0 = .error (.InvalidPayloadCount 0)) :=
  ⟨(getProtocol_validate_by_count exReport).1 (by decide),
    (getProtocol_validate_by_count exReport2).2.1 (by decide),
    (getProtocol_validate_by_count exReport0).2.2 (by decide) (by decide)⟩

/-- C7: for a report with at least one payload entry, `IsDebugReport` is
`true` exactly when the cleartext field of the entry at index 0 is
non-empty, and the result depends on nothing but that field. -/
theorem isDebugReport_head_only (r : AggregatableReport) :
    (∀ p rest, r.aggregationServicePayloads = p :: rest →
      ((IsDebugReport r = some true ↔ p.debugCleartextPayload ≠ []) ∧
        (IsDebugReport r = some false ↔ p.debugCleartextPayload = []))) ∧
    (∀ r2 : AggregatableReport,
      r.aggregationServicePayloads ≠ [] → r2.aggregationServicePayloads ≠ [] →
      r.aggregationServicePayloads.head?.map (fun p => p.debugCleartextPayload) =
        r2.aggregationServicePayloads.head?.map (fun p => p.debugCleartextPayload) →
      IsDebugReport r = IsDebugReport r2) := by
  constructor
  · intro p rest hr
    unfold IsDebugReport
    rw [hr]
    constructor
    · constructor
      · intro h
        simpa using h
      · intro h
        simpa using h
    · constructor
      · intro h
        simpa using h
      · intro h
        simp [h]
  · intro r2 h1 h2 hhead
    unfold IsDebugReport
    cases hc1 : r.aggregationServicePayloads with
    | nil => exact absurd hc1 h1
    | cons p rest =>
      cases hc2 : r2.aggregationServicePayloads with
      | nil => exact absurd hc2 h2
      | cons q rest2 =>
        rw [hc1, hc2] at hhead
        simp only [List.head?_cons, Option.map_some'] at hhead
        show some (decide (p.debugCleartextPayload ≠ [])) =
          some (decide (q.debugCleartextPayload ≠ []))
        rw [Option.some_inj.mp hhead]

/-- Witness for C7: the example report (empty cleartext at index 0) is not
a debug report, and a cleartext-carrying variant with different other
fields gives the same answer as a minimal report with the same index-0
cleartext. -/
theorem isDebugReport_head_only_witness :
    ((IsDebugReport exReport = some true ↔ exPayload.debugCleartextPayload ≠ []) ∧
      (IsDebugReport exReport = some false ↔ exPayload.debugCleartextPayload = [])) ∧
    IsDebugReport exReport = IsDebugReport exReport2 :=
  ⟨(isDebugReport_head_only exReport).1 exPayload [] rfl,
    (isDebugReport_head_only exReport).2 exReport2 (by decide) (by decide) (by decide)⟩

/-- C8: `IsDebugReport` is defined exactly when the report has at least one
payload entry; on an empty payload sequence the index-0 access fails. -/
theorem isDebugReport_requires_payload (r : AggregatableReport) :
    (r.aggregationServicePayloads ≠ [] → (IsDebugReport r).isSome = true) ∧
    (r.aggregationServicePayloads = [] → IsDebugReport r = none) := by
  constructor
  · intro h
    unfold IsDebugReport
    cases hc : r.aggregationServicePayloads with
    | nil => exact absurd hc h
    | cons p rest => rfl
  · intro h
    unfold IsDebugReport
    rw [h]

/-- Witness for C8: the one-payload example is defined, the zero-payload
example fails. -/
theorem isDebugReport_requires_payload_witness :
    (IsDebugReport exReport).isSome = true ∧ IsDebugReport exReport0 = none :=
  ⟨(isDebugReport_requires_payload exReport).1 (by decide),
    (isDebugReport_requires_payload exReport0).2 (by decide)⟩

/-- C2: serializing a well-formed wire record and deserializing the result
succeeds and reproduces the record exactly, field by field. -/
theorem serialize_deserialize_roundtrip (p : AggregatablePayload) (h : p.WF) :
    ∃ s, SerializeAggregatablePayload p = .ok s ∧
      DeserializeAggregatablePayload s = .ok p := by
  refine ⟨base64Encode (protoMarshal p), rfl, ?_⟩
  unfold DeserializeAggregatablePayload
  rw [base64_roundtrip (protoMarshal p) (protoMarshal_bytes p h)]
  simp only [protoUnmarshal_marshal]

/-- Witness for C2: the round trip on the record with ciphertext `[1]`,
shared info `"SI"` and key id `"k1"`. -/
theorem serialize_deserialize_roundtrip_witness :
    ∃ s, SerializeAggregatablePayload ⟨[1], [83, 73], [107, 49]⟩ = .ok s ∧
      DeserializeAggregatablePayload s = .ok ⟨[1], [83, 73], [107, 49]⟩ :=
  serialize_deserialize_roundtrip ⟨[1], [83, 73], [107, 49]⟩
    ⟨by decide, by decide, by decide⟩

theorem extractList_ok_shape (si : Bytes) (u : Bool) :
    ∀ ps out, extractList si u ps = .ok out →
      out.length = ps.length ∧
      ∀ i (hi : i < out.length) (hj : i < ps.length),
        (out.get ⟨i, hi⟩).sharedInfo = si ∧
        base64Decode (if u then (ps.get ⟨i, hj⟩).debugCleartextPayload
            else (ps.get ⟨i, hj⟩).payload)
          = some (out.get ⟨i, hi⟩).data ∧
        (out.get ⟨i, hi⟩).keyId = (if u then [] else (ps.get ⟨i, hj⟩).keyID) := by
  intro ps
  induction ps with
  | nil =>
    intro out h
    rw [extractList] at h
    cases h
    exact ⟨rfl, fun i hi hj => absurd hi (by simp)⟩
  | cons p rest ih =>
    intro out h
    rw [extractList] at h
    cases h1 : extractOne si u p with
    | error e =>
      rw [h1] at h
      cases h
    | ok record =>
      rw [h1] at h
      cases h2 : extractList si u rest with
      | error e =>
        rw [h2] at h
        cases h
      | ok tail =>
        rw [h2] at h
        cases h
        obtain ⟨ihlen, ihshape⟩ := ih tail h2
        have hrec : record.sharedInfo = si ∧
            base64Decode (if u then p.debugCleartextPayload else p.payload)
              = some record.data ∧
            record.keyId = (if u then [] else p.keyID) := by
          unfold extractOne at h1
          cases u with
          | false =>
            rw [if_neg (by simp)] at h1
            cases hb : base64Decode p.payload with
            | none =>
              rw [hb] at h1
              cases h1
            | some data =>
              rw [hb] at h1
              cases h1
              refine ⟨rfl, ?_, by rw [if_neg (by simp)]⟩
              rw [if_neg (by simp)]
              exact hb
          | true =>
            rw [if_pos rfl] at h1
            cases hb : base64Decode p.debugCleartextPayload with
            | none =>
              rw [hb] at h1
              cases h1
            | some data =>
              rw [hb] at h1
              cases h1
              refine ⟨rfl, ?_, by rw [if_pos rfl]⟩
              rw [if_pos rfl]
              exact hb
        constructor
        · simp [ihlen]
        · intro i hi hj
          cases i with
          | zero => exact hrec
          | succ j =>
            have hi2 : j < tail.length := by
              simp at hi
              omega
            have hj2 : j < rest.length := by
              simp at hj
              omega
            exact ihshape j hi2 hj2

/-- C3: when extraction succeeds it yields one wire record per payload
entry, in the original order; each record carries the decoded bytes of the
selected channel, the report's shared-info string verbatim, and — under
`useCleartext` — an empty key id, otherwise the entry's `KeyID`. -/
theorem extract_one_record_per_payload (r : AggregatableReport) (u : Bool)
    (out : List AggregatablePayload)
    (h : ExtractPayloadsFromAggregatableReport r u = .ok out) :
    out.length = r.aggregationServicePayloads.length ∧
    ∀ i (hi : i < out.length) (hj : i < r.aggregationServicePayloads.length),
      (out.get ⟨i, hi⟩).sharedInfo = r.sharedInfo ∧
      base64Decode (if u then (r.aggregationServicePayloads.get ⟨i, hj⟩).debugCleartextPayload
          else (r.aggregationServicePayloads.get ⟨i, hj⟩).payload)
        = some (out.get ⟨i, hi⟩).data ∧
      (out.get ⟨i, hi⟩).keyId
        = (if u then [] else (r.aggregationServicePayloads.get ⟨i, hj⟩).keyID) :=
  extractList_ok_shape r.sharedInfo u r.aggregationServicePayloads out h

/-- Witness for C3: extraction of the example report on the encrypted
channel yields one record with data `[1]`, the shared info, and key id
`"k1"`. -/
theorem extract_one_record_per_payload_witness :
    ∃ out, ExtractPayloadsFromAggregatableReport exReport false = .ok out ∧
      (out.length = exReport.aggregationServicePayloads.length ∧
        ∀ i (hi : i < out.length)
          (hj : i < exReport.aggregationServicePayloads.length),
          (out.get ⟨i, hi⟩).sharedInfo = exReport.sharedInfo ∧
          base64Decode (if false then
              (exReport.aggregationServicePayloads.get ⟨i, hj⟩).debugCleartextPayload
            else (exReport.aggregationServicePayloads.get ⟨i, hj⟩).payload)
            = some (out.get ⟨i, hi⟩).data ∧
          (out.get ⟨i, hi⟩).keyId = (if false then []
            else (exReport.aggregationServicePayloads.get ⟨i, hj⟩).keyID)) :=
  ⟨[⟨[1], [83, 73], [107, 49]⟩], rfl,
    extract_one_record_per_payload exReport false [⟨[1], [83, 73], [107, 49]⟩] rfl⟩

theorem serializeLoop_eq :
    ∀ (ps : List AggregatablePayload) (i : Nat),
      serializeLoop i ps
        = .ok ((List.enumFrom i ps).map fun x => (itoa x.1, base64Encode (protoMarshal x.2))) := by
  intro ps
  induction ps with
  | nil =>
    intro i
    rfl
  | cons record rest ih =>
    intro i
    show (match serializeLoop (i + 1) rest with
      | Except.error e => Except.error e
      | Except.ok tail => Except.ok ((itoa i, base64Encode (protoMarshal record)) :: tail))
      = _
    rw [ih (i + 1)]
    rfl

/-- C6: a failure of extraction makes `convertReport` — and therefore the
two entry points fixed to one channel — return that same error, with no
partial map of the successfully processed records. -/
theorem convertReport_propagates_error (r : AggregatableReport) (u : Bool) (e : Err)
    (h : ExtractPayloadsFromAggregatableReport r u = .error e) :
    convertReport r u = .error e ∧
    (u = false → GetSerializedEncryptedRecords r = .error e) ∧
    (u = true → GetSerializedCleartextRecords r = .error e) := by
  have h1 : convertReport r u = .error e := by
    unfold convertReport
    rw [h]
  refine ⟨h1, ?_, ?_⟩
  · intro hu
    subst hu
    exact h1
  · intro hu
    subst hu
    exact h1

/-- Witness for C6: the report whose payload string is the malformed base64
`"!"` fails extraction, and `convertReport` surfaces that same error. -/
theorem convertReport_propagates_error_witness :
    ExtractPayloadsFromAggregatableReport exReportBad false = .error .DecodeError ∧
    convertReport exReportBad false = .error .DecodeError ∧
    GetSerializedEncryptedRecords exReportBad = .error .DecodeError :=
  ⟨rfl, (convertReport_propagates_error exReportBad false .DecodeError rfl).1,
    (convertReport_propagates_error exReportBad false .DecodeError rfl).2.1 rfl⟩

/-- Counterexample to C4 as stated: `exReport`'s single payload entry has an
empty `debugCleartextPayload`, yet `GetSerializedCleartextRecords` succeeds
(the Go base64 decoder accepts the empty string as zero bytes), returning
the one-entry map rather than a `DecodeError`. -/
theorem cleartext_empty_succeeds_counterexample :
    exPayload.debugCleartextPayload = [] ∧
    exReport.aggregationServicePayloads = [exPayload] ∧
    GetSerializedCleartextRecords exReport
      = .ok [([48], [67, 103, 65, 83, 65, 108, 78, 74])] :=
  ⟨rfl, rfl, rfl⟩

theorem extractList_empty_clear (si : Bytes) :
    ∀ ps : List AggregationServicePayload,
      (∀ p ∈ ps, p.debugCleartextPayload = []) →
      extractList si true ps = .ok (List.replicate ps.length ⟨[], si, []⟩) := by
  intro ps
  induction ps with
  | nil =>
    intro _
    rfl
  | cons p rest ih =>
    intro h
    have hp : p.debugCleartextPayload = [] := h p (by simp)
    have hrest : ∀ q ∈ rest, q.debugCleartextPayload = [] := by
      intro q hq
      exact h q (by simp [hq])
    rw [extractList]
    have h1 : extractOne si true p = .ok ⟨[], si, []⟩ := by
      unfold extractOne
      rw [if_pos rfl, hp]
      rfl
    rw [h1, ih hrest]
    rfl

theorem enumFrom_replicate_snd (a : AggregatablePayload) :
    ∀ (n i : Nat) (pr : Nat × AggregatablePayload),
      pr ∈ List.enumFrom i (List.replicate n a) → pr.2 = a := by
  intro n
  induction n with
  | zero =>
    intro i pr h
    simp [List.replicate] at h
  | succ m ih =>
    intro i pr h
    rw [List.replicate, List.enumFrom] at h
    rcases List.mem_cons.mp h with h | h
    · rw [h]
    · exact ih (i + 1) pr h

/-- C4, amended: on a report whose payload entries all have an empty
`debugCleartextPayload`, building the transport map with
`useCleartext = true` does not fail: Go's base64 decoder treats the empty
string as zero-length ciphertext, so the map builds with one record per
payload entry, each record serializing empty ciphertext with the report's
shared-info string. -/
theorem cleartext_empty_decodes_empty (r : AggregatableReport)
    (h : ∀ p ∈ r.aggregationServicePayloads, p.debugCleartextPayload = []) :
    ∃ out, GetSerializedCleartextRecords r = .ok out ∧
      out.length = r.aggregationServicePayloads.length ∧
      ∀ pr ∈ out, pr.2 = base64Encode (protoMarshal ⟨[], r.sharedInfo, []⟩) := by
  have hextract : ExtractPayloadsFromAggregatableReport r true
      = .ok (List.replicate r.aggregationServicePayloads.length ⟨[], r.sharedInfo, []⟩) :=
    extractList_empty_clear r.sharedInfo r.aggregationServicePayloads h
  have hconv : GetSerializedCleartextRecords r
      = serializeLoop 0 (List.replicate r.aggregationServicePayloads.length
          ⟨[], r.sharedInfo, []⟩) := by
    unfold GetSerializedCleartextRecords convertReport
    rw [hextract]
  rw [hconv, serializeLoop_eq]
  refine ⟨_, rfl, ?_, ?_⟩
  · rw [List.length_map, List.enumFrom_length, List.length_replicate]
  · intro pr hpr
    rcases List.mem_map.mp hpr with ⟨x, hx, hxeq⟩
    rw [← hxeq]
    have := enumFrom_replicate_snd ⟨[], r.sharedInfo, []⟩
      r.aggregationServicePayloads.length 0 x hx
    rw [this]

/-- Witness for C4 amended: the example report, whose only entry has empty
cleartext. -/
theorem cleartext_empty_decodes_empty_witness :
    ∃ out, GetSerializedCleartextRecords exReport = .ok out ∧
      out.length = exReport.aggregationServicePayloads.length ∧
      ∀ pr ∈ out, pr.2 = base64Encode (protoMarshal ⟨[], exReport.sharedInfo, []⟩) :=
  cleartext_empty_decodes_empty exReport (by decide)

theorem enumFrom_map_keys :
    ∀ (ps : List AggregatablePayload) (i : Nat),
      ((List.enumFrom i ps).map fun x =>
          (itoa x.1, base64Encode (protoMarshal x.2))).map Prod.fst
        = (List.range ps.length).map (fun j => itoa (i + j)) := by
  intro ps
  induction ps with
  | nil =>
    intro i
    rfl
  | cons p rest ih =>
    intro i
    rw [List.enumFrom, List.map_cons, List.map_cons, List.length_cons,
      List.range_succ_eq_map, List.map_cons, ih (i + 1), List.map_map]
    show (itoa i, _).1 :: _ = itoa (i + 0) :: _
    congr 1
    apply List.map_congr_left
    intro j hj
    show itoa (i + 1 + j) = itoa (i + (j + 1))
    congr 1
    omega

/-- C5: on success with `useCleartext = false`, the transport map has
exactly the decimal strings of positions `0 .. n-1` as keys, in insertion
order — `"0"` alone for one payload, `"0"` and `"1"` for two — and each
value is the serialized wire record built from that entry's decoded
encrypted payload and key id together with the report's shared info. -/
theorem convertReport_indexed_keys (r : AggregatableReport)
    (out : List (Bytes × Bytes)) (h : convertReport r false = .ok out) :
    out.map Prod.fst = (List.range r.aggregationServicePayloads.length).map itoa ∧
    (r.aggregationServicePayloads.length = 1 → out.map Prod.fst = [[48]]) ∧
    (r.aggregationServicePayloads.length = 2 → out.map Prod.fst = [[48], [49]]) ∧
    ∀ i (hi : i < out.length) (hj : i < r.aggregationServicePayloads.length),
      ∃ data, base64Decode (r.aggregationServicePayloads.get ⟨i, hj⟩).payload = some data ∧
        out.get ⟨i, hi⟩ = (itoa i, base64Encode (protoMarshal
          ⟨data, r.sharedInfo, (r.aggregationServicePayloads.get ⟨i, hj⟩).keyID⟩)) := by
  unfold convertReport at h
  cases hex : ExtractPayloadsFromAggregatableReport r false with
  | error e =>
    rw [hex] at h
    cases h
  | ok ps =>
    rw [hex] at h
    have h2 : serializeLoop 0 ps = Except.ok out := h
    rw [serializeLoop_eq] at h2
    cases h2
    obtain ⟨hlen, hshape⟩ := extractList_ok_shape r.sharedInfo false
      r.aggregationServicePayloads ps hex
    have hkeys : ((List.enumFrom 0 ps).map fun x =>
        (itoa x.1, base64Encode (protoMarshal x.2))).map Prod.fst
        = (List.range r.aggregationServicePayloads.length).map itoa := by
      rw [enumFrom_map_keys ps 0, hlen]
      apply List.map_congr_left
      intro j hj
      show itoa (0 + j) = itoa j
      congr 1
      omega
    refine ⟨hkeys, ?_, ?_, ?_⟩
    · intro h1
      rw [hkeys, h1]
      rfl
    · intro h2
      rw [hkeys, h2]
      rfl
    · intro i hi hj
      have hips : i < ps.length := by
        omega
      have hi2 : i < (List.enumFrom 0 ps).length := by
        rw [List.enumFrom_length]
        exact hips
      obtain ⟨hsi, hdata, hkey⟩ := hshape i hips hj
      refine ⟨(ps.get ⟨i, hips⟩).data, ?_, ?_⟩
      · simpa using hdata
      · have hget : ((List.enumFrom 0 ps).map fun x =>
            (itoa x.1, base64Encode (protoMarshal x.2))).get ⟨i, by simpa using hi⟩
            = (itoa i, base64Encode (protoMarshal (ps.get ⟨i, hips⟩))) := by
          simp only [List.get_eq_getElem, List.getElem_map, List.getElem_enumFrom]
          show (itoa (0 + i), _) = _
          congr 2
          omega
        rw [hget]
        have hrec : ps.get ⟨i, hips⟩
            = ⟨(ps.get ⟨i, hips⟩).data, r.sharedInfo,
                (r.aggregationServicePayloads.get ⟨i, hj⟩).keyID⟩ := by
          cases hsrc : ps.get ⟨i, hips⟩
          rw [hsrc] at hsi hkey
          simp at hsi hkey ⊢
          exact ⟨hsi, hkey⟩
        rw [← hrec]

/-- Witness for C5: the two-payload example report yields exactly the keys
`"0"` and `"1"`. -/
theorem convertReport_indexed_keys_witness :
    ∃ out, convertReport exReport2 false = .ok out ∧
      out.map Prod.fst
        = (List.range exReport2.aggregationServicePayloads.length).map itoa ∧
      out.map Prod.fst = [[48], [49]] := by
  refine ⟨_, rfl, ?_⟩
  have h := convertReport_indexed_keys exReport2 _ rfl
  exact ⟨h.1, h.2.2.1 rfl⟩

/-- Two reports that agree on every field except (possibly) the
`debugCleartextPayload` of their payload entries. -/
def DebugOnlyVariant (r1 r2 : AggregatableReport) : Prop :=
  r1.sourceSite = r2.sourceSite ∧
  r1.attributionDestination = r2.attributionDestination ∧
  r1.sharedInfo = r2.sharedInfo ∧
  r1.sourceDebugKey = r2.sourceDebugKey ∧
  r1.triggerDebugKey = r2.triggerDebugKey ∧
  r1.aggregationServicePayloads.length = r2.aggregationServicePayloads.length ∧
  ∀ pq ∈ r1.aggregationServicePayloads.zip r2.aggregationServicePayloads,
    pq.1.payload = pq.2.payload ∧ pq.1.keyID = pq.2.keyID

theorem extractList_ignores_cleartext (si : Bytes) :
    ∀ ps qs : List AggregationServicePayload, ps.length = qs.length →
      (∀ pq ∈ ps.zip qs, pq.1.payload = pq.2.payload ∧ pq.1.keyID = pq.2.keyID) →
      extractList si false ps = extractList si false qs := by
  intro ps
  induction ps with
  | nil =>
    intro qs hlen _
    cases qs with
    | nil => rfl
    | cons q qs2 => simp at hlen
  | cons p rest ih =>
    intro qs hlen hzip
    cases qs with
    | nil => simp at hlen
    | cons q qs2 =>
      have hpq : p.payload = q.payload ∧ p.keyID = q.keyID := hzip (p, q) (by simp)
      have hone : extractOne si false p = extractOne si false q := by
        unfold extractOne
        rw [if_neg (by simp), if_neg (by simp), hpq.1, hpq.2]
      rw [extractList, extractList, hone,
        ih qs2 (by simpa using hlen) (fun pq hpq2 => hzip pq (by simp [hpq2]))]

/-- C9: two reports identical except in their `debugCleartextPayload`
fields (one may even hold malformed base64 there) extract identically and
build identical transport maps on the encrypted path: the cleartext field
never influences the `useCleartext = false` output. -/
theorem encrypted_path_ignores_cleartext (r1 r2 : AggregatableReport)
    (h : DebugOnlyVariant r1 r2) :
    ExtractPayloadsFromAggregatableReport r1 false
      = ExtractPayloadsFromAggregatableReport r2 false ∧
    GetSerializedEncryptedRecords r1 = GetSerializedEncryptedRecords r2 := by
  obtain ⟨_, _, hsi, _, _, hlen, hzip⟩ := h
  have hext : ExtractPayloadsFromAggregatableReport r1 false
      = ExtractPayloadsFromAggregatableReport r2 false := by
    unfold ExtractPayloadsFromAggregatableReport
    rw [hsi]
    exact extractList_ignores_cleartext r2.sharedInfo
      r1.aggregationServicePayloads r2.aggregationServicePayloads hlen hzip
  refine ⟨hext, ?_⟩
  unfold GetSerializedEncryptedRecords convertReport
  rw [hext]

/-- A payload entry like `exPayload` but with malformed base64 (`"!"`) in
the cleartext field. -/
def exPayloadBadClear : AggregationServicePayload := ⟨[65, 81, 61, 61], [107, 49], [33]⟩

/-- `exReport` with malformed cleartext in its payload entry. -/
def exReportBadClear : AggregatableReport := ⟨[], [], [83, 73], [exPayloadBadClear], [], []⟩

/-- Witness for C9: `exReport` and its malformed-cleartext variant extract
and serialize identically on the encrypted path. -/
theorem encrypted_path_ignores_cleartext_witness :
    ExtractPayloadsFromAggregatableReport exReport false
      = ExtractPayloadsFromAggregatableReport exReportBadClear false ∧
    GetSerializedEncryptedRecords exReport = GetSerializedEncryptedRecords exReportBadClear :=
  encrypted_path_ignores_cleartext exReport exReportBadClear
    ⟨rfl, rfl, rfl, rfl, rfl, rfl, by decide⟩

theorem extractList_error_is_decode (si : Bytes) (u : Bool) :
    ∀ (ps : List AggregationServicePayload) (e : Err),
      extractList si u ps = .error e → e = .DecodeError := by
  intro ps
  induction ps with
  | nil =>
    intro e h
    rw [extractList] at h
    cases h
  | cons p rest ih =>
    intro e h
    rw [extractList] at h
    cases h1 : extractOne si u p with
    | error e2 =>
      rw [h1] at h
      cases h
      unfold extractOne at h1
      cases u with
      | false =>
        rw [if_neg (by simp)] at h1
        cases hb : base64Decode p.payload with
        | none =>
          rw [hb] at h1
          cases h1
          rfl
        | some data =>
          rw [hb] at h1
          cases h1
      | true =>
        rw [if_pos rfl] at h1
        cases hb : base64Decode p.debugCleartextPayload with
        | none =>
          rw [hb] at h1
          cases h1
          rfl
        | some data =>
          rw [hb] at h1
          cases h1
    | ok record =>
      rw [h1] at h
      cases h2 : extractList si u rest with
      | error e2 =>
        rw [h2] at h
        cases h
        exact ih e h2
      | ok tail =>
        rw [h2] at h
        cases h

theorem extractList_ok_of_decodable (si : Bytes) (u : Bool) :
    ∀ ps : List AggregationServicePayload,
      (∀ p ∈ ps,
        (base64Decode (if u then p.debugCleartextPayload else p.payload)).isSome = true) →
      ∃ out, extractList si u ps = .ok out ∧ out.length = ps.length := by
  intro ps
  induction ps with
  | nil =>
    intro _
    exact ⟨[], rfl, rfl⟩
  | cons p rest ih =>
    intro h
    have hp := h p (by simp)
    obtain ⟨out2, hout2, hlen2⟩ := ih (fun q hq => h q (by simp [hq]))
    cases hb : base64Decode (if u then p.debugCleartextPayload else p.payload) with
    | none =>
      rw [hb] at hp
      cases hp
    | some data =>
      have h1 : ∃ record, extractOne si u p = .ok record := by
        unfold extractOne
        cases u with
        | false =>
          rw [if_neg (by simp)]
          rw [if_neg (by simp)] at hb
          rw [hb]
          exact ⟨_, rfl⟩
        | true =>
          rw [if_pos rfl]
          rw [if_pos rfl] at hb
          rw [hb]
          exact ⟨_, rfl⟩
      obtain ⟨record, hrec⟩ := h1
      refine ⟨record :: out2, ?_, by simp [hlen2]⟩
      rw [extractList, hrec, hout2]

/-- C10: the transport pipeline enforces no payload-count invariant: with
zero payload entries both entry points succeed with the empty map, with any
number of decodable entries `convertReport` succeeds with one map entry per
payload, and no input ever produces an `InvalidPayloadCount` error. -/
theorem transport_map_no_count_check (r : AggregatableReport) :
    (r.aggregationServicePayloads = [] →
      GetSerializedEncryptedRecords r = .ok [] ∧
      GetSerializedCleartextRecords r = .ok []) ∧
    (∀ u : Bool,
      (∀ p ∈ r.aggregationServicePayloads,
        (base64Decode (if u then p.debugCleartextPayload else p.payload)).isSome = true) →
      ∃ out, convertReport r u = .ok out ∧
        out.length = r.aggregationServicePayloads.length) ∧
    (∀ (u : Bool) (n : Nat), convertReport r u ≠ .error (.InvalidPayloadCount n)) := by
  refine ⟨?_, ?_, ?_⟩
  · intro h
    constructor
    · unfold GetSerializedEncryptedRecords convertReport
        ExtractPayloadsFromAggregatableReport
      rw [h]
      rfl
    · unfold GetSerializedCleartextRecords convertReport
        ExtractPayloadsFromAggregatableReport
      rw [h]
      rfl
  · intro u h
    obtain ⟨ps, hps, hlen⟩ := extractList_ok_of_decodable r.sharedInfo u
      r.aggregationServicePayloads h
    have hconv : convertReport r u = serializeLoop 0 ps := by
      unfold convertReport ExtractPayloadsFromAggregatableReport
      rw [hps]
    rw [hconv, serializeLoop_eq]
    refine ⟨_, rfl, ?_⟩
    rw [List.length_map, List.enumFrom_length, hlen]
  · intro u n hcontra
    unfold convertReport at hcontra
    cases hex : ExtractPayloadsFromAggregatableReport r u with
    | error e =>
      rw [hex] at hcontra
      cases hcontra
      exact absurd (extractList_error_is_decode r.sharedInfo u
        r.aggregationServicePayloads _ hex) (by simp)
    | ok ps =>
      rw [hex] at hcontra
      have h2 : serializeLoop 0 ps = Except.error (Err.InvalidPayloadCount n) := hcontra
      rw [serializeLoop_eq] at h2
      cases h2

/-- Witness for C10: the zero-payload report succeeds with the empty map,
and the three-payload report succeeds with three entries. -/
theorem transport_map_no_count_check_witness :
    (GetSerializedEncryptedRecords exReport0 = .ok [] ∧
      GetSerializedCleartextRecords exReport0 = .ok []) ∧
    (∃ out, convertReport exReport3 false = .ok out ∧
      out.length = exReport3.aggregationServicePayloads.length) :=
  ⟨(transport_map_no_count_check exReport0).1 rfl,
    (transport_map_no_count_check exReport3).2.1 false (by decide)⟩

end ReportTypes
